import Mathlib

/-!
A verification development for a small TypeScript backend consisting of an
`AuthManager` (user registration, credential verification, bearer-token
sessions) and a `ConfigManager` (environment-scoped key/value storage), both
backed by a SQLite store.

The store is modelled explicitly: tables are lists of row structures, SQL
statements become pure functions on the `DB` state, and store-level behaviour
that the code relies on is modelled at the level the code observes it:

* SQLite compares `TEXT` values under BINARY collation (byte-wise
  lexicographic order); `datetime('now')` yields `"YYYY-MM-DD HH:MM:SS"`,
  while JavaScript `Date.prototype.toISOString` yields
  `"YYYY-MM-DDTHH:MM:SS.sssZ"` — both are modelled character by character,
  since `validateToken` compares such strings.
* `UNIQUE` constraints make an `INSERT` fail atomically.
* In a `SELECT t.*, u.*` join, duplicate column names (`id`, `created_at`)
  are resolved by the bun:sqlite driver keeping the **last** occurrence, so
  the joined row carries the user's `id` and `created_at`.
* Node's `Buffer.from(s, "hex")` decodes leading hex-digit pairs and stops at
  the first invalid pair; `crypto.timingSafeEqual` throws on length mismatch
  and otherwise returns byte-wise equality.

Civil datetimes are modelled as a structure of fields in UTC (the deployment
assumption; no DST shifts), where lexicographic field order coincides with
chronological order. The SHA-256 digest is an external library function and
is modelled as an explicit function parameter `hash`; where a claim needs its
output format, the property "64 lowercase hex characters" is a hypothesis.
-/

namespace Backend

/-- Byte-wise (memcmp-style) strict order on character lists: the model of
SQLite BINARY collation on TEXT values. -/
def charsLt : List Char → List Char → Bool
  | [], [] => false
  | [], _ :: _ => true
  | _ :: _, [] => false
  | a :: as, b :: bs =>
      a.toNat < b.toNat || (a.toNat == b.toNat && charsLt as bs)

/-- SQLite TEXT comparison `a > b` under BINARY collation. -/
def textGt (a b : String) : Bool := charsLt b.data a.data

/-- Strict lexicographic order on equal-length lists of naturals. -/
def natsLt : List Nat → List Nat → Bool
  | [], _ => false
  | _ :: _, [] => false
  | a :: as, b :: bs => a < b || (a == b && natsLt as bs)

/-! ## Civil datetimes (UTC) -/

structure DateTime where
  year : Nat
  month : Nat
  day : Nat
  hour : Nat
  minute : Nat
  second : Nat
  ms : Nat
deriving DecidableEq

/-- Field bounds under which the textual renderings below are faithful. -/
def DateTime.Valid (d : DateTime) : Prop :=
  d.year ≤ 9999 ∧ 1 ≤ d.month ∧ d.month ≤ 12 ∧ 1 ≤ d.day ∧ d.day ≤ 31 ∧
    d.hour ≤ 23 ∧ d.minute ≤ 59 ∧ d.second ≤ 59 ∧ d.ms ≤ 999

instance (d : DateTime) : Decidable d.Valid := by
  unfold DateTime.Valid; infer_instance

def DateTime.fields (d : DateTime) : List Nat :=
  [d.year, d.month, d.day, d.hour, d.minute, d.second, d.ms]

/-- Chronological strict order on civil datetimes (lexicographic on fields). -/
def dtLt (a b : DateTime) : Bool := natsLt a.fields b.fields

def DateTime.dateFields (d : DateTime) : List Nat := [d.year, d.month, d.day]

/-- Strict order on the calendar-date part only. -/
def dateLt (a b : DateTime) : Bool := natsLt a.dateFields b.dateFields

def digitChar (n : Nat) : Char := Char.ofNat (48 + n)

def pad2 (n : Nat) : List Char := [digitChar (n / 10), digitChar (n % 10)]

def pad3 (n : Nat) : List Char := digitChar (n / 100) :: pad2 (n % 100)

def pad4 (n : Nat) : List Char := pad2 (n / 100) ++ pad2 (n % 100)

def dateChars (d : DateTime) : List Char :=
  pad4 d.year ++ '-' :: (pad2 d.month ++ '-' :: pad2 d.day)

def timeChars (d : DateTime) : List Char :=
  pad2 d.hour ++ ':' :: (pad2 d.minute ++ ':' :: pad2 d.second)

/-- Model of JavaScript `Date.prototype.toISOString`:
`"YYYY-MM-DDTHH:MM:SS.sssZ"` (UTC). -/
def toISOString (d : DateTime) : String :=
  ⟨dateChars d ++ 'T' :: (timeChars d ++ '.' :: (pad3 d.ms ++ ['Z']))⟩

/-- Model of SQLite `datetime('now')`: `"YYYY-MM-DD HH:MM:SS"` (UTC). -/
def sqliteNow (d : DateTime) : String :=
  ⟨dateChars d ++ ' ' :: timeChars d⟩

def isLeapYear (y : Nat) : Bool :=
  (y % 4 == 0 && y % 100 != 0) || y % 400 == 0

def daysInMonth (y m : Nat) : Nat :=
  if m == 2 then (if isLeapYear y then 29 else 28)
  else if m == 4 || m == 6 || m == 9 || m == 11 then 30
  else 31

/-- Model of `expiresAt.setHours(expiresAt.getHours() + 24)` on a UTC clock
with no DST: the instant advances by exactly 24 hours, i.e. the calendar
date advances one day and the time-of-day fields are unchanged. -/
def addOneDay (d : DateTime) : DateTime :=
  if d.day < daysInMonth d.year d.month then { d with day := d.day + 1 }
  else if d.month < 12 then { d with day := 1, month := d.month + 1 }
  else { d with day := 1, month := 1, year := d.year + 1 }

/-! ## Hex decoding and timing-safe comparison (node library models) -/

def hexVal (c : Char) : Option Nat :=
  if 48 ≤ c.toNat ∧ c.toNat ≤ 57 then some (c.toNat - 48)
  else if 97 ≤ c.toNat ∧ c.toNat ≤ 102 then some (c.toNat - 87)
  else if 65 ≤ c.toNat ∧ c.toNat ≤ 70 then some (c.toNat - 55)
  else none

/-- Model of `Buffer.from(s, "hex")`: decode leading pairs of hex digits,
stopping at the first pair that is not two hex digits (an odd trailing
digit is dropped). -/
def bufferFromHex : List Char → List Nat
  | c1 :: c2 :: rest =>
    match hexVal c1, hexVal c2 with
    | some hi, some lo => (16 * hi + lo) :: bufferFromHex rest
    | _, _ => []
  | _ => []

/-- Model of `crypto.timingSafeEqual`: throws (`error`) when the buffer
lengths differ, otherwise returns byte-wise equality. -/
def timingSafeEqual (a b : List Nat) : Except Unit Bool :=
  if a.length = b.length then .ok (a == b) else .error ()

/-- "64 lowercase hex characters": the output format of
`createHash("sha256").update(s).digest("hex")`. -/
def Hex64 (s : String) : Prop :=
  s.data.length = 64 ∧ ∀ c ∈ s.data, (hexVal c).isSome

instance (s : String) : Decidable (Hex64 s) := by
  unfold Hex64
  infer_instance

/-! ## The store -/

structure UserRow where
  id : Nat
  username : String
  password_hash : String
  created_at : String
deriving DecidableEq

structure TokenRow where
  id : Nat
  user_id : Nat
  token : String
  expires_at : String
  created_at : String
deriving DecidableEq

inductive Environment
  | development
  | staging
  | production
deriving DecidableEq

structure ConfigRow where
  id : Nat
  key : String
  value : String
  environment : Environment
  created_at : String
  updated_at : String
deriving DecidableEq

structure DB where
  users : List UserRow
  tokens : List TokenRow
  config : List ConfigRow
  nextUserId : Nat
  nextTokenId : Nat
  nextConfigId : Nat
deriving DecidableEq

def DB.empty : DB := ⟨[], [], [], 1, 1, 1⟩

/-- Store-level `INSERT INTO users (username, password_hash) VALUES (?, ?)`:
the `UNIQUE` constraint on `username` makes the insert fail atomically;
`created_at` takes the store default `CURRENT_TIMESTAMP`. -/
def usersInsert (db : DB) (now : DateTime) (username passwordHash : String) :
    Except Unit (Nat × DB) :=
  if db.users.any (fun u => u.username == username) then .error ()
  else
    .ok (db.nextUserId,
      { db with
        users := db.users ++ [⟨db.nextUserId, username, passwordHash, sqliteNow now⟩],
        nextUserId := db.nextUserId + 1 })

/-- Store-level `INSERT INTO tokens (user_id, token, expires_at)`: the
`UNIQUE` constraint on `token` makes the insert fail atomically. -/
def tokensInsert (db : DB) (now : DateTime) (userId : Nat)
    (token expiresAt : String) : Except Unit DB :=
  if db.tokens.any (fun t => t.token == token) then .error ()
  else
    .ok { db with
      tokens := db.tokens ++ [⟨db.nextTokenId, userId, token, expiresAt, sqliteNow now⟩],
      nextTokenId := db.nextTokenId + 1 }

namespace AuthManager

inductive CreateUserError
  | usernameExists
deriving DecidableEq

/-- Embedding of `AuthManager.createUser`: hash the password, insert, and map
the store's `UNIQUE constraint` failure to the `"Username already exists"`
error. The second component is the store state after the call. -/
def createUser (hash : String → String) (db : DB) (now : DateTime)
    (username password : String) : Except CreateUserError Nat × DB :=
  let passwordHash := hash password
  match usersInsert db now username passwordHash with
  | .ok (id, db') => (.ok id, db')
  | .error _ => (.error .usernameExists, db)

/-- Which exit `authenticate` took (the TS function's return points). -/
inductive AuthEvent
  | noUser
  | lenMismatch
  | cmpThrow
  | wrongPassword
  | insertThrow
  | issued
deriving DecidableEq

structure AuthResult where
  result : Option String
  db : DB
  event : AuthEvent
deriving DecidableEq

/-- Embedding of `AuthManager.authenticate`. `freshToken` stands for the
value of `randomBytes(32).toString("hex")`; `now` is the clock at the call.
The token expiry is `now + 24` hours (`tokenExpiryHours` default), stored as
an ISO string; a failing token insert propagates as an exception
(`insertThrow`), leaving the store unchanged. -/
def authenticate (hash : String → String) (freshToken : String) (now : DateTime)
    (db : DB) (username password : String) : AuthResult :=
  let passwordHash := hash password
  match db.users.find? (fun u => u.username == username) with
  | none => ⟨none, db, .noUser⟩
  | some user =>
    let storedHash := bufferFromHex user.password_hash.data
    let providedHash := bufferFromHex passwordHash.data
    if storedHash.length ≠ providedHash.length then ⟨none, db, .lenMismatch⟩
    else
      match timingSafeEqual storedHash providedHash with
      | .error _ => ⟨none, db, .cmpThrow⟩
      | .ok false => ⟨none, db, .wrongPassword⟩
      | .ok true =>
        match tokensInsert db now user.id freshToken (toISOString (addOneDay now)) with
        | .error _ => ⟨none, db, .insertThrow⟩
        | .ok db' => ⟨some freshToken, db', .issued⟩

/-- Embedding of `AuthManager.validateToken`:
`SELECT t.*, u.* FROM tokens t JOIN users u ON t.user_id = u.id WHERE
t.token = ? AND t.expires_at > datetime("now")`, then the `User` object is
rebuilt from the row. Duplicate column names (`id`, `created_at`) resolve to
the user's values (bun:sqlite keeps the last occurrence), and `expires_at`
(an ISO string) is compared with `datetime('now')` as TEXT under BINARY
collation. -/
def validateToken (db : DB) (now : DateTime) (token : String) : Option UserRow :=
  match db.tokens.find? (fun t =>
      t.token == token && textGt t.expires_at (sqliteNow now)) with
  | none => none
  | some t =>
    match db.users.find? (fun u => u.id == t.user_id) with
    | none => none
    | some u => some ⟨u.id, u.username, u.password_hash, u.created_at⟩

/-- Embedding of `AuthManager.revokeToken`: `DELETE FROM tokens WHERE token = ?`. -/
def revokeToken (db : DB) (token : String) : DB :=
  { db with tokens := db.tokens.filter (fun t => t.token != token) }

/-- Embedding of `AuthManager.getUserById`. -/
def getUserById (db : DB) (id : Nat) : Option UserRow :=
  db.users.find? (fun u => u.id == id)

end AuthManager

/-! ## ConfigManager -/

/-- SQLite ASCII-only case folding, as used by the default `LIKE`. -/
def toLowerAscii (c : Char) : Char :=
  if 65 ≤ c.toNat ∧ c.toNat ≤ 90 then Char.ofNat (c.toNat + 32) else c

/-- `LIKE` compares non-wildcard characters case-insensitively (ASCII only). -/
def likeCharEq (p c : Char) : Bool := toLowerAscii p == toLowerAscii c

/-- Model of the SQLite `LIKE` operator (no `ESCAPE` clause): `%` matches any
sequence (some suffix of the text matches the rest of the pattern), `_`
matches any single character, and any other pattern character matches one
text character ASCII-case-insensitively. -/
def likeMatch : List Char → List Char → Bool
  | [], s => s.isEmpty
  | p :: ps, s =>
    if p = '%' then s.tails.any (likeMatch ps)
    else
      match s with
      | [] => false
      | c :: ss =>
        if p = '_' then likeMatch ps ss
        else likeCharEq p c && likeMatch ps ss

/-- `pat` occurs as a contiguous sublist of the second argument. -/
def containsSub (pat : List Char) : List Char → Bool
  | [] => pat.isEmpty
  | c :: t => pat.isPrefixOf (c :: t) || containsSub pat t

/-- `ORDER BY key` under BINARY collation. -/
def keyLe (a b : ConfigRow) : Prop := charsLt b.key.data a.key.data = false

instance : DecidableRel keyLe := fun a b =>
  inferInstanceAs (Decidable (charsLt b.key.data a.key.data = false))

namespace ConfigManager

/-- The manager-wide default, as constructed in `index.ts`. -/
def defaultEnvironment : Environment := .production

/-- `environment || this.defaultEnvironment`. -/
def resolveEnv (e : Option Environment) : Environment :=
  e.getD defaultEnvironment

/-- Embedding of `ConfigManager.set`: select the row for `(key, env)`; if
present, `UPDATE config SET value = ?, updated_at = ? WHERE id = ?` and
return the spread `{ ...existing, value, updated_at: now }`; otherwise insert
a fresh row with `created_at = updated_at = now`. `now` is the caller clock
rendered by `toISOString`. -/
def set (db : DB) (now : DateTime) (key value : String)
    (environment : Option Environment) : ConfigRow × DB :=
  let env := resolveEnv environment
  let nowIso := toISOString now
  match db.config.find? (fun r => r.key == key && r.environment == env) with
  | some existing =>
    (⟨existing.id, existing.key, value, existing.environment,
        existing.created_at, nowIso⟩,
     { db with config := db.config.map (fun r =>
         if r.id == existing.id then { r with value := value, updated_at := nowIso }
         else r) })
  | none =>
    (⟨db.nextConfigId, key, value, env, nowIso, nowIso⟩,
     { db with
       config := db.config ++ [⟨db.nextConfigId, key, value, env, nowIso, nowIso⟩],
       nextConfigId := db.nextConfigId + 1 })

/-- Embedding of `ConfigManager.get`. -/
def get (db : DB) (key : String) (environment : Option Environment) :
    Option String :=
  let env := resolveEnv environment
  (db.config.find? (fun r => r.key == key && r.environment == env)).map (·.value)

/-- Embedding of `ConfigManager.getAll`. -/
def getAll (db : DB) (environment : Option Environment) : List ConfigRow :=
  let env := resolveEnv environment
  List.insertionSort keyLe (db.config.filter (fun r => r.environment == env))

/-- Embedding of `ConfigManager.delete`: returns `result.changes > 0` and the
new store state. -/
def delete (db : DB) (key : String) (environment : Option Environment) :
    Bool × DB :=
  let env := resolveEnv environment
  let remaining := db.config.filter (fun r => !(r.key == key && r.environment == env))
  (remaining.length < db.config.length, { db with config := remaining })

/-- Embedding of `ConfigManager.exists` (a Lean keyword, hence the name):
`SELECT COUNT(*) ... > 0`. -/
def existsKey (db : DB) (key : String) (environment : Option Environment) : Bool :=
  let env := resolveEnv environment
  (db.config.filter (fun r => r.key == key && r.environment == env)).length > 0

/-- Embedding of `ConfigManager.getByPattern`:
`SELECT * FROM config WHERE key LIKE ? AND environment = ? ORDER BY key`
with the pattern wrapped as `%pattern%`. -/
def getByPattern (db : DB) (pattern : String)
    (environment : Option Environment) : List ConfigRow :=
  let env := resolveEnv environment
  List.insertionSort keyLe (db.config.filter (fun r =>
    likeMatch ('%' :: (pattern.data ++ ['%'])) r.key.data && r.environment == env))

/-- The claim's reading of `getByPattern`, written from the spec's words:
entries of the environment whose `key` contains `pattern` as a substring
(case-insensitive variant below), ordered by key. This case-sensitive version
is what the claim literally states. -/
def getByPatternSubstr (db : DB) (pattern : String)
    (environment : Option Environment) : List ConfigRow :=
  let env := resolveEnv environment
  List.insertionSort keyLe (db.config.filter (fun r =>
    containsSub pattern.data r.key.data && r.environment == env))

/-- The amended reading: substring containment up to ASCII case. -/
def getByPatternSubstrCI (db : DB) (pattern : String)
    (environment : Option Environment) : List ConfigRow :=
  let env := resolveEnv environment
  List.insertionSort keyLe (db.config.filter (fun r =>
    containsSub (pattern.data.map toLowerAscii) (r.key.data.map toLowerAscii) &&
      r.environment == env))

end ConfigManager

/-- A sequentially executed `ConfigManager` operation: `set` (with the caller
clock at the call) or `delete`. -/
inductive CfgOp
  | setOp (now : DateTime) (key value : String) (env : Option Environment)
  | delOp (key : String) (env : Option Environment)

def applyOp (db : DB) : CfgOp → DB
  | .setOp now k v e => (ConfigManager.set db now k v e).2
  | .delOp k e => (ConfigManager.delete db k e).2

def applyOps (db : DB) (ops : List CfgOp) : DB := ops.foldl applyOp db

/-- The `(key, environment)`-uniqueness invariant of the config table. -/
def PairUnique (db : DB) : Prop :=
  db.config.Pairwise (fun a b => ¬(a.key = b.key ∧ a.environment = b.environment))

/-! ## Concrete stores used in counterexamples and witnesses -/

/-- A stand-in for the SHA-256 hex digest: a constant 64-hex-character
output, enough to exercise the managers on concrete inputs. -/
def hashA : String → String := fun _ => ⟨List.replicate 64 'a'⟩

def userA : UserRow := ⟨1, "alice", hashA "pw", "2025-01-01 00:00:00"⟩

def dbC2 : DB := { DB.empty with users := [userA], nextUserId := 2 }

def aliceRow : UserRow := ⟨1, "alice", "aa", "2025-01-01 00:00:00"⟩

/-- A store holding one token row whose `expires_at` is the ISO rendering of
2025-06-15 08:00:00 UTC. -/
def dbC1 : DB :=
  { DB.empty with
    users := [aliceRow],
    tokens := [⟨1, 1, "tok", toISOString ⟨2025, 6, 15, 8, 0, 0, 0⟩,
      "2025-06-14 08:00:00"⟩],
    nextUserId := 2, nextTokenId := 2 }

/-- A store holding one production config row with key `"x"`. -/
def rowX : ConfigRow :=
  ⟨1, "x", "v", .production, "2025-01-01T00:00:00.000Z", "2025-01-01T00:00:00.000Z"⟩

def dbC8 : DB := { DB.empty with config := [rowX], nextConfigId := 2 }

/-! ## Lemmas: the collation order -/

theorem bool_eq_decide {x : Bool} {p : Prop} [Decidable p] (h : x = true ↔ p) :
    x = decide p := by
  by_cases hp : p
  · simp [hp] at h ⊢; exact h
  · simp [hp] at h ⊢; exact h

theorem char_toNat_inj {a b : Char} (h : a.toNat = b.toNat) : a = b :=
  Char.eq_of_val_eq (UInt32.toNat.inj h)

theorem charsLt_irrefl (l : List Char) : charsLt l l = false := by
  induction l with
  | nil => rfl
  | cons a as ih => simp [charsLt, ih]

theorem charsLt_asymm : ∀ {a b : List Char},
    charsLt a b = true → charsLt b a = false
  | [], [], _ => rfl
  | [], _ :: _, _ => rfl
  | _ :: _, [], h => by simp [charsLt] at h
  | a :: as, b :: bs, h => by
    simp only [charsLt, Bool.or_eq_true, Bool.and_eq_true, decide_eq_true_eq,
      beq_iff_eq] at h
    rcases h with h | ⟨he, hr⟩
    · simp [charsLt]; omega
    · have := charsLt_asymm hr
      simp [charsLt, this]; omega

theorem charsLt_connex : ∀ {a b : List Char},
    charsLt a b = false → charsLt b a = false → a = b
  | [], [], _, _ => rfl
  | [], _ :: _, h, _ => by simp [charsLt] at h
  | _ :: _, [], _, h => by simp [charsLt] at h
  | a :: as, b :: bs, h, h' => by
    simp only [charsLt, Bool.or_eq_false_iff, Bool.and_eq_false_iff,
      decide_eq_false_iff_not, beq_eq_false_iff_ne, ne_eq] at h h'
    have hab : a.toNat = b.toNat := by omega
    rcases h.2 with hc | hr
    · exact absurd hab hc
    · rcases h'.2 with hc | hr'
      · exact absurd hab.symm hc
      · have := charsLt_connex hr hr'
        rw [char_toNat_inj hab, this]

theorem charsLt_trans : ∀ {a b c : List Char},
    charsLt a b = true → charsLt b c = true → charsLt a c = true
  | [], [], _, h, _ => by simp [charsLt] at h
  | [], _ :: _, [], _, h => by simp [charsLt] at h
  | [], _ :: _, _ :: _, _, _ => rfl
  | _ :: _, [], _, h, _ => by simp [charsLt] at h
  | _ :: _, _ :: _, [], _, h => by simp [charsLt] at h
  | a :: as, b :: bs, c :: cs, h, h' => by
    simp only [charsLt, Bool.or_eq_true, Bool.and_eq_true, decide_eq_true_eq,
      beq_iff_eq] at h h' ⊢
    rcases h with h | ⟨he, hr⟩
    · rcases h' with h' | ⟨he', _⟩
      · left; omega
      · left; omega
    · rcases h' with h' | ⟨he', hr'⟩
      · left; omega
      · right; exact ⟨by omega, charsLt_trans hr hr'⟩

theorem charsLt_cons_same (c : Char) (r1 r2 : List Char) :
    charsLt (c :: r1) (c :: r2) = charsLt r1 r2 := by
  simp [charsLt]

theorem charsLt_append : ∀ {a b : List Char}, a.length = b.length →
    ∀ (c d : List Char),
      charsLt (a ++ c) (b ++ d) = (if a = b then charsLt c d else charsLt a b)
  | [], [], _, c, d => by simp
  | [], _ :: _, h, _, _ => by simp at h
  | _ :: _, [], h, _, _ => by simp at h
  | a :: as, b :: bs, h, c, d => by
    have hlen : as.length = bs.length := by simpa using h
    by_cases hab : a.toNat = b.toNat
    · have : a = b := char_toNat_inj hab
      subst this
      rw [List.cons_append, List.cons_append, charsLt_cons_same,
        charsLt_append hlen c d]
      by_cases habs : as = bs
      · subst habs
        rw [if_pos rfl, if_pos rfl]
      · have hne : ¬(a :: as = a :: bs) := by simp [habs]
        rw [if_neg habs, if_neg hne, charsLt_cons_same]
    · have hne : ¬(a :: as = b :: bs) := by
        intro hcon; injection hcon with h1 _; exact hab (by rw [h1])
      rw [List.cons_append, List.cons_append, if_neg hne]
      simp only [charsLt]
      have : (a.toNat == b.toNat) = false := by simp [hab]
      simp [this]

/-! ## Lemmas: decimal renderings -/

theorem digitChar_toNat : ∀ n ≤ 9, (digitChar n).toNat = 48 + n := by decide

theorem digitChar_inj : ∀ n ≤ 9, ∀ m ≤ 9,
    digitChar n = digitChar m ↔ n = m := by decide

theorem pad2_inj {a b : Nat} (ha : a ≤ 99) (hb : b ≤ 99) :
    pad2 a = pad2 b ↔ a = b := by
  unfold pad2
  simp only [List.cons.injEq, and_true]
  rw [digitChar_inj (a / 10) (by omega) (b / 10) (by omega),
    digitChar_inj (a % 10) (by omega) (b % 10) (by omega)]
  omega

theorem charsLt_pad2 {a b : Nat} (ha : a ≤ 99) (hb : b ≤ 99) :
    charsLt (pad2 a) (pad2 b) = decide (a < b) := by
  unfold pad2
  simp only [charsLt, Bool.and_false, Bool.or_false]
  rw [digitChar_toNat (a / 10) (by omega), digitChar_toNat (b / 10) (by omega),
    digitChar_toNat (a % 10) (by omega), digitChar_toNat (b % 10) (by omega)]
  by_cases hq : a / 10 = b / 10
  · have hd : decide (48 + a % 10 < 48 + b % 10) = decide (a < b) :=
      decide_eq_decide.mpr (by omega)
    have hd2 : decide (48 + a / 10 < 48 + b / 10) = false := by
      rw [decide_eq_false_iff_not]; omega
    have hbq : (48 + a / 10 == 48 + b / 10) = true := by rw [beq_iff_eq]; omega
    rw [hd, hd2, hbq]
    simp
  · have hd : decide (48 + a / 10 < 48 + b / 10) = decide (a < b) :=
      decide_eq_decide.mpr (by omega)
    have hbq : (48 + a / 10 == 48 + b / 10) = false := by
      rw [beq_eq_false_iff_ne]; omega
    rw [hd, hbq]
    simp

theorem pad2_length (n : Nat) : (pad2 n).length = 2 := by simp [pad2]

theorem pad4_length (n : Nat) : (pad4 n).length = 4 := by simp [pad4, pad2]

theorem pad3_length (n : Nat) : (pad3 n).length = 3 := by simp [pad3, pad2]

theorem pad4_inj {a b : Nat} (ha : a ≤ 9999) (hb : b ≤ 9999) :
    pad4 a = pad4 b ↔ a = b := by
  unfold pad4 pad2
  simp only [List.cons_append, List.nil_append, List.cons.injEq, and_true]
  rw [digitChar_inj _ (by omega) _ (by omega), digitChar_inj _ (by omega) _ (by omega),
    digitChar_inj _ (by omega) _ (by omega), digitChar_inj _ (by omega) _ (by omega)]
  omega

theorem charsLt_pad2_seg {a b : Nat} (ha : a ≤ 99) (hb : b ≤ 99)
    (r1 r2 : List Char) :
    charsLt (pad2 a ++ r1) (pad2 b ++ r2) =
      (decide (a < b) || (a == b && charsLt r1 r2)) := by
  rw [charsLt_append (by simp [pad2])]
  by_cases h : a = b
  · subst h
    rw [if_pos rfl]
    simp
  · rw [if_neg (fun hc => h ((pad2_inj ha hb).mp hc)), charsLt_pad2 ha hb]
    simp [h]

theorem charsLt_pad4_seg {a b : Nat} (ha : a ≤ 9999) (hb : b ≤ 9999)
    (r1 r2 : List Char) :
    charsLt (pad4 a ++ r1) (pad4 b ++ r2) =
      (decide (a < b) || (a == b && charsLt r1 r2)) := by
  unfold pad4
  rw [List.append_assoc, List.append_assoc,
    charsLt_pad2_seg (by omega) (by omega),
    charsLt_pad2_seg (by omega) (by omega)]
  by_cases h : a = b
  · subst h; simp
  · by_cases hq : a / 100 = b / 100
    · have hr : ¬(a % 100 = b % 100) := by omega
      have hd : (decide (a % 100 < b % 100)) = decide (a < b) :=
        decide_eq_decide.mpr (by omega)
      have hb1 : (a % 100 == b % 100) = false := by
        rw [beq_eq_false_iff_ne]; exact hr
      have hb2 : (a == b) = false := by rw [beq_eq_false_iff_ne]; exact h
      simp [hq, hd, hb1, hb2]
    · have hd : (decide (a / 100 < b / 100)) = decide (a < b) :=
        decide_eq_decide.mpr (by omega)
      have hb1 : (a / 100 == b / 100) = false := by
        rw [beq_eq_false_iff_ne]; exact hq
      have hb2 : (a == b) = false := by rw [beq_eq_false_iff_ne]; exact h
      simp [hd, hb1, hb2]

theorem charsLt_pad3_seg {a b : Nat} (ha : a ≤ 999) (hb : b ≤ 999)
    (r1 r2 : List Char) :
    charsLt (pad3 a ++ r1) (pad3 b ++ r2) =
      (decide (a < b) || (a == b && charsLt r1 r2)) := by
  unfold pad3
  simp only [List.cons_append]
  by_cases hq : a / 100 = b / 100
  · rw [hq, charsLt_cons_same, charsLt_pad2_seg (by omega) (by omega)]
    have hd : (decide (a % 100 < b % 100)) = decide (a < b) :=
      decide_eq_decide.mpr (by omega)
    have hb1 : (a % 100 == b % 100) = (a == b) := by
      by_cases hab : a = b
      · simp [hab]
      · have : ¬(a % 100 = b % 100) := by omega
        rw [beq_eq_false_iff_ne.mpr this, beq_eq_false_iff_ne.mpr hab]
    rw [hd, hb1]
  · simp only [charsLt]
    rw [digitChar_toNat (a / 100) (by omega), digitChar_toNat (b / 100) (by omega)]
    have hd : (decide (48 + a / 100 < 48 + b / 100)) = decide (a < b) :=
      decide_eq_decide.mpr (by omega)
    have hb1 : (48 + a / 100 == 48 + b / 100) = false := by
      rw [beq_eq_false_iff_ne]; omega
    have hb2 : (a == b) = false := by rw [beq_eq_false_iff_ne]; omega
    rw [hd, hb1, hb2]
    simp

/-! ## Lemmas: datetime strings under the collation order -/

theorem string_data_mk (l : List Char) : (String.mk l).data = l := rfl

theorem dateChars_length (d : DateTime) : (dateChars d).length = 10 := by
  simp [dateChars, pad4, pad2]

theorem charsLt_dateChars {a b : DateTime} (ha : a.Valid) (hb : b.Valid) :
    charsLt (dateChars a) (dateChars b) = dateLt a b := by
  obtain ⟨hy, hm1, hm2, hd1, hd2, _, _, _, _⟩ := ha
  obtain ⟨hy', hm1', hm2', hd1', hd2', _, _, _, _⟩ := hb
  unfold dateChars
  rw [charsLt_pad4_seg hy hy', charsLt_cons_same,
    charsLt_pad2_seg (by omega) (by omega), charsLt_cons_same,
    charsLt_pad2 (by omega) (by omega)]
  simp [dateLt, natsLt, DateTime.dateFields]

theorem charsLt_iso {a b : DateTime} (ha : a.Valid) (hb : b.Valid) :
    charsLt (toISOString a).data (toISOString b).data = dtLt a b := by
  obtain ⟨hy, hm1, hm2, hd1, hd2, hh, hmi, hs, hms⟩ := ha
  obtain ⟨hy', hm1', hm2', hd1', hd2', hh', hmi', hs', hms'⟩ := hb
  unfold toISOString dateChars timeChars
  rw [string_data_mk, string_data_mk]
  simp only [List.append_assoc, List.cons_append]
  rw [charsLt_pad4_seg hy hy', charsLt_cons_same,
    charsLt_pad2_seg (by omega) (by omega), charsLt_cons_same,
    charsLt_pad2_seg (by omega) (by omega), charsLt_cons_same,
    charsLt_pad2_seg (by omega) (by omega), charsLt_cons_same,
    charsLt_pad2_seg (by omega) (by omega), charsLt_cons_same,
    charsLt_pad2_seg (by omega) (by omega), charsLt_cons_same,
    charsLt_pad3_seg (by omega) (by omega), charsLt_cons_same]
  simp [dtLt, natsLt, DateTime.fields, charsLt]

/-- The heart of the expiry check: under BINARY collation an ISO-rendered
`expires_at` compares greater than `datetime('now')` exactly when its
calendar date is not earlier — the time of day is never reached, because
the 11th character is `'T'` on one side and `' '` on the other. -/
theorem textGt_iso_now {e n : DateTime} (he : e.Valid) (hn : n.Valid) :
    textGt (toISOString e) (sqliteNow n) = !(dateLt e n) := by
  unfold textGt toISOString sqliteNow
  rw [string_data_mk, string_data_mk]
  rw [charsLt_append (by rw [dateChars_length, dateChars_length])]
  by_cases h : dateChars n = dateChars e
  · rw [if_pos h]
    have h1 : dateLt e n = false := by
      rw [← charsLt_dateChars he hn, ← h, charsLt_irrefl]
    rw [h1]
    have hd : (decide (Char.toNat ' ' < Char.toNat 'T')) = true := by decide
    simp only [charsLt, hd, Bool.true_or, Bool.not_false]
  · rw [if_neg h, charsLt_dateChars hn he]
    cases hen : dateLt e n
    · cases hne : dateLt n e
      · exfalso
        apply h
        apply charsLt_connex
        · rw [charsLt_dateChars hn he]; exact hne
        · rw [charsLt_dateChars he hn]; exact hen
      · rfl
    · have h2 : charsLt (dateChars e) (dateChars n) = true := by
        rw [charsLt_dateChars he hn]; exact hen
      have h3 := charsLt_asymm h2
      rw [charsLt_dateChars hn he] at h3
      rw [h3]
      rfl

theorem dtLt_imp_not_dateLt {a b : DateTime} (h : dtLt a b = true) :
    dateLt b a = false := by
  cases hc : dateLt b a
  · rfl
  · exfalso
    simp only [dtLt, dateLt, DateTime.fields, DateTime.dateFields, natsLt,
      Bool.or_eq_true, Bool.and_eq_true, decide_eq_true_eq, beq_iff_eq,
      Bool.false_eq_true, and_false, or_false] at h hc
    omega

theorem daysInMonth_le (y m : Nat) : daysInMonth y m ≤ 31 := by
  unfold daysInMonth
  split_ifs <;> omega

theorem addOneDay_valid {d : DateTime} (h : d.Valid) (hy : d.year ≤ 9998) :
    (addOneDay d).Valid := by
  obtain ⟨h1, h2, h3, h4, h5, h6, h7, h8, h9⟩ := h
  have hdm := daysInMonth_le d.year d.month
  unfold addOneDay DateTime.Valid
  split_ifs with ha hb <;> simp <;> omega

/-! ## Lemmas: store lookups -/

theorem find?_user_id {u : UserRow} :
    ∀ {l : List UserRow}, l.Pairwise (fun a b => a.id ≠ b.id) → u ∈ l →
      l.find? (fun x => x.id == u.id) = some u
  | [], _, hm => by simp at hm
  | h :: t, hp, hm => by
    rcases List.mem_cons.mp hm with rfl | hmt
    · simp
    · have hne : h.id ≠ u.id := (List.pairwise_cons.mp hp).1 u hmt
      rw [List.find?_cons_of_neg _ (by simp [hne]),
        find?_user_id (List.pairwise_cons.mp hp).2 hmt]

theorem find?_config_pair {r₀ : ConfigRow} {k : String} {env : Environment} :
    ∀ {l : List ConfigRow},
      l.Pairwise (fun a b => ¬(a.key = b.key ∧ a.environment = b.environment)) →
      r₀ ∈ l → r₀.key = k → r₀.environment = env →
      l.find? (fun r => r.key == k && r.environment == env) = some r₀
  | [], _, hm, _, _ => by simp at hm
  | h :: t, hp, hm, hk, he => by
    rcases List.mem_cons.mp hm with rfl | hmt
    · rw [List.find?_cons_of_pos _ (by simp [hk, he])]
    · have hne := (List.pairwise_cons.mp hp).1 r₀ hmt
      rw [List.find?_cons_of_neg _ (by
          simp only [Bool.and_eq_true, beq_iff_eq, not_and]
          intro h1 h2
          exact hne ⟨by rw [h1, hk], by rw [h2, he]⟩),
        find?_config_pair (List.pairwise_cons.mp hp).2 hmt hk he]

/-- A token string absent from the tokens table never validates. -/
theorem validateToken_absent (db : DB) (n : DateTime) (s : String)
    (h : ∀ t ∈ db.tokens, t.token ≠ s) :
    AuthManager.validateToken db n s = none := by
  unfold AuthManager.validateToken
  have hnone : db.tokens.find?
      (fun t => t.token == s && textGt t.expires_at (sqliteNow n)) = none := by
    rw [List.find?_eq_none]
    intro t ht
    simp [h t ht]
  rw [hnone]

/-! ## Lemmas: hex buffers -/

theorem bufferFromHex_length : ∀ (l : List Char),
    (∀ c ∈ l, (hexVal c).isSome) → (bufferFromHex l).length = l.length / 2
  | [], _ => by simp [bufferFromHex]
  | [c], _ => by simp [bufferFromHex]
  | c1 :: c2 :: rest, h => by
    obtain ⟨h1, hh1⟩ := Option.isSome_iff_exists.mp (h c1 (by simp))
    obtain ⟨h2, hh2⟩ := Option.isSome_iff_exists.mp (h c2 (by simp))
    have ih := bufferFromHex_length rest (fun c hc => h c (by simp [hc]))
    simp only [bufferFromHex, hh1, hh2, List.length_cons, ih]
    omega

/-! ## Lemmas: authentication control flow -/

/-- Forward run of `authenticate`: when the user row is found and its stored
hash is the hash of the supplied password, and the generated token does not
collide, the call issues the token and appends exactly one token row. -/
theorem authenticate_success (hash : String → String) (tok : String)
    (now : DateTime) (db : DB) (username password : String) (user : UserRow)
    (hfind : db.users.find? (fun u => u.username == username) = some user)
    (hhash : user.password_hash = hash password)
    (hfresh : ∀ t ∈ db.tokens, t.token ≠ tok) :
    AuthManager.authenticate hash tok now db username password =
      ⟨some tok,
       { db with
         tokens := db.tokens ++ [⟨db.nextTokenId, user.id, tok,
           toISOString (addOneDay now), sqliteNow now⟩],
         nextTokenId := db.nextTokenId + 1 },
       .issued⟩ := by
  have hany : db.tokens.any (fun t => t.token == tok) = false := by
    rw [List.any_eq_false]
    intro t ht
    simp [hfresh t ht]
  have htse : timingSafeEqual (bufferFromHex (hash password).data)
      (bufferFromHex (hash password).data) = .ok true := by
    unfold timingSafeEqual
    simp
  have hins : tokensInsert db now user.id tok (toISOString (addOneDay now)) =
      .ok { db with
        tokens := db.tokens ++ [⟨db.nextTokenId, user.id, tok,
          toISOString (addOneDay now), sqliteNow now⟩],
        nextTokenId := db.nextTokenId + 1 } := by
    unfold tokensInsert
    rw [if_neg (by simp [hany])]
  unfold AuthManager.authenticate
  rw [hfind]
  dsimp only
  rw [hhash, if_neg (by simp), htse, hins]

/-- Backward analysis of `authenticate`: a successful call found a user row
with the supplied username, the issued token was absent from the store, and
the store after the call extends the tokens table by exactly the new row. -/
theorem authenticate_issued (hash : String → String) (tok tok' : String)
    (now : DateTime) (db : DB) (username password : String)
    (hres : (AuthManager.authenticate hash tok now db username password).result =
      some tok') :
    tok' = tok ∧
    ∃ user ∈ db.users, user.username = username ∧
      (∀ t ∈ db.tokens, t.token ≠ tok) ∧
      AuthManager.authenticate hash tok now db username password =
        ⟨some tok,
         { db with
           tokens := db.tokens ++ [⟨db.nextTokenId, user.id, tok,
             toISOString (addOneDay now), sqliteNow now⟩],
           nextTokenId := db.nextTokenId + 1 },
         .issued⟩ := by
  unfold AuthManager.authenticate at hres ⊢
  cases hfind : db.users.find? (fun u => u.username == username) with
  | none =>
    rw [hfind] at hres
    simp at hres
  | some user =>
    rw [hfind] at hres
    dsimp only at hres ⊢
    by_cases hlen : (bufferFromHex user.password_hash.data).length ≠
        (bufferFromHex (hash password).data).length
    · rw [if_pos hlen] at hres
      simp at hres
    · rw [if_neg hlen] at hres ⊢
      cases htse : timingSafeEqual (bufferFromHex user.password_hash.data)
          (bufferFromHex (hash password).data) with
      | error e =>
        rw [htse] at hres
        simp at hres
      | ok b =>
        cases b with
        | false =>
          rw [htse] at hres
          simp at hres
        | true =>
          rw [htse] at hres
          dsimp only at hres ⊢
          cases hins : tokensInsert db now user.id tok
              (toISOString (addOneDay now)) with
          | error e =>
            rw [hins] at hres
            simp at hres
          | ok db' =>
            rw [hins] at hres
            dsimp only at hres ⊢
            simp only [Option.some.injEq] at hres
            have hfresh : ∀ t ∈ db.tokens, t.token ≠ tok := by
              unfold tokensInsert at hins
              by_cases hany : db.tokens.any (fun t => t.token == tok)
              · rw [if_pos hany] at hins
                simp at hins
              · intro t ht
                have hf := List.any_eq_false.mp
                  (Bool.eq_false_iff.mpr (fun hc => hany (by rw [hc]))) t ht
                simpa using hf
            have hany : db.tokens.any (fun t => t.token == tok) = false := by
              rw [List.any_eq_false]
              intro t ht
              simp [hfresh t ht]
            refine ⟨hres.symm, user, List.mem_of_find?_eq_some hfind, ?_, hfresh, ?_⟩
            · have := List.find?_some hfind
              simpa using this
            · unfold tokensInsert at hins
              rw [if_neg (by simp [hany])] at hins
              simp only [Except.ok.injEq] at hins
              rw [← hins]

/-! ## Lemmas: the config table -/

theorem filter_config_pair {r₀ : ConfigRow} {k : String} {env : Environment} :
    ∀ {l : List ConfigRow},
      l.Pairwise (fun a b => ¬(a.key = b.key ∧ a.environment = b.environment)) →
      r₀ ∈ l → r₀.key = k → r₀.environment = env →
      l.filter (fun r => r.key == k && r.environment == env) = [r₀]
  | [], _, hm, _, _ => by simp at hm
  | h :: t, hp, hm, hk, he => by
    rcases List.mem_cons.mp hm with rfl | hmt
    · rw [List.filter_cons_of_pos (by simp [hk, he])]
      have ht : t.filter (fun r => r.key == k && r.environment == env) = [] := by
        rw [List.filter_eq_nil_iff]
        intro r hr
        have hne := (List.pairwise_cons.mp hp).1 r hr
        simp only [Bool.and_eq_true, beq_iff_eq, not_and]
        intro h1 h2
        exact hne ⟨by rw [hk, h1], by rw [he, h2]⟩
      rw [ht]
    · have hne := (List.pairwise_cons.mp hp).1 r₀ hmt
      rw [List.filter_cons_of_neg (by
          simp only [Bool.and_eq_true, beq_iff_eq, not_and]
          intro h1 h2
          exact hne ⟨by rw [h1, hk], by rw [h2, he]⟩),
        filter_config_pair (List.pairwise_cons.mp hp).2 hmt hk he]

/-- `set` on a store with no row for the pair inserts a fresh row with
`created_at = updated_at = now`. -/
theorem set_insert (db : DB) (t : DateTime) (k v : String)
    (env : Option Environment)
    (hnone : ∀ r ∈ db.config,
      ¬(r.key = k ∧ r.environment = ConfigManager.resolveEnv env)) :
    ConfigManager.set db t k v env =
      (⟨db.nextConfigId, k, v, ConfigManager.resolveEnv env, toISOString t,
        toISOString t⟩,
       { db with
         config := db.config ++ [⟨db.nextConfigId, k, v,
           ConfigManager.resolveEnv env, toISOString t, toISOString t⟩],
         nextConfigId := db.nextConfigId + 1 }) := by
  have hf : db.config.find? (fun r => r.key == k &&
      r.environment == ConfigManager.resolveEnv env) = none := by
    rw [List.find?_eq_none]
    intro r hr
    simp only [Bool.and_eq_true, beq_iff_eq, not_and]
    intro h1 h2
    exact hnone r hr ⟨h1, h2⟩
  unfold ConfigManager.set
  dsimp only
  rw [hf]

/-- `set` on a store already holding a (unique) row for the pair updates only
`value` and `updated_at` of that row by id: the returned entry keeps the
row's `id`, `created_at` and `environment`; the rows for the pair after the
call are exactly the updated row; all other rows are untouched. -/
theorem set_update (db : DB) (t : DateTime) (k v2 : String)
    (env : Option Environment) (r₀ : ConfigRow)
    (hpair : db.config.Pairwise
      (fun a b => ¬(a.key = b.key ∧ a.environment = b.environment)))
    (hids : db.config.Pairwise (fun a b => a.id ≠ b.id))
    (hmem : r₀ ∈ db.config) (hk : r₀.key = k)
    (he : r₀.environment = ConfigManager.resolveEnv env) :
    ConfigManager.set db t k v2 env =
      (⟨r₀.id, r₀.key, v2, r₀.environment, r₀.created_at, toISOString t⟩,
       { db with config := db.config.map (fun r =>
           if r.id == r₀.id then { r with value := v2, updated_at := toISOString t }
           else r) }) ∧
    (ConfigManager.set db t k v2 env).2.config.filter
        (fun r => r.key == k && r.environment == ConfigManager.resolveEnv env) =
      [⟨r₀.id, r₀.key, v2, r₀.environment, r₀.created_at, toISOString t⟩] ∧
    (ConfigManager.set db t k v2 env).2.config.filter
        (fun r => !(r.key == k && r.environment == ConfigManager.resolveEnv env)) =
      db.config.filter
        (fun r => !(r.key == k && r.environment == ConfigManager.resolveEnv env)) := by
  have hf := find?_config_pair hpair hmem hk he
  have heq : ConfigManager.set db t k v2 env =
      (⟨r₀.id, r₀.key, v2, r₀.environment, r₀.created_at, toISOString t⟩,
       { db with config := db.config.map (fun r =>
           if r.id == r₀.id then { r with value := v2, updated_at := toISOString t }
           else r) }) := by
    unfold ConfigManager.set
    dsimp only
    rw [hf]
  refine ⟨heq, ?_, ?_⟩
  · rw [heq]
    dsimp only
    rw [List.filter_map]
    have hcong : db.config.filter ((fun r => r.key == k &&
        r.environment == ConfigManager.resolveEnv env) ∘ (fun r =>
          if r.id == r₀.id then { r with value := v2, updated_at := toISOString t }
          else r)) =
        db.config.filter (fun r => r.key == k &&
          r.environment == ConfigManager.resolveEnv env) := by
      apply List.filter_congr
      intro r _
      dsimp only [Function.comp]
      split <;> rfl
    rw [hcong, filter_config_pair hpair hmem hk he]
    simp
  · rw [heq]
    dsimp only
    rw [List.filter_map]
    have hcong : db.config.filter ((fun r => !(r.key == k &&
        r.environment == ConfigManager.resolveEnv env)) ∘ (fun r =>
          if r.id == r₀.id then { r with value := v2, updated_at := toISOString t }
          else r)) =
        db.config.filter (fun r => !(r.key == k &&
          r.environment == ConfigManager.resolveEnv env)) := by
      apply List.filter_congr
      intro r _
      dsimp only [Function.comp]
      split <;> rfl
    rw [hcong]
    have hid : ∀ r ∈ db.config.filter (fun r => !(r.key == k &&
        r.environment == ConfigManager.resolveEnv env)),
        (if r.id == r₀.id then
          ({ r with value := v2, updated_at := toISOString t } : ConfigRow)
        else r) = r := by
      intro r hr
      have hrm : r ∈ db.config := List.mem_of_mem_filter hr
      have hpr := List.of_mem_filter hr
      have hne : r ≠ r₀ := by
        intro hcon
        subst hcon
        simp [hk, he] at hpr
      have hidne : r.id ≠ r₀.id :=
        (hids.forall (by intro x y hxy hyx; exact hxy hyx.symm)) hrm hmem hne
      rw [if_neg (by simp [hidne])]
    rw [List.map_congr_left hid, List.map_id']

/-! ## Claims -/

/-- **C1**: the claim states that `validateToken` returns the user only while
`expires_at` is strictly greater than the store's current time. The code
violates this: at store time 2025-06-15 20:00:00 UTC — twelve hours after
the token's expiry instant 2025-06-15T08:00:00.000Z, as the first conjunct
records — `validateToken` still returns the user, because the TEXT
comparison `expires_at > datetime('now')` compares the ISO rendering
(11th character `'T'`) against SQLite's rendering (11th character `' '`)
under BINARY collation, so any token whose expiry date equals the current
UTC date is accepted. -/
theorem c1_expired_token_still_accepted :
    dtLt ⟨2025, 6, 15, 8, 0, 0, 0⟩ ⟨2025, 6, 15, 20, 0, 0, 0⟩ = true ∧
    AuthManager.validateToken dbC1 ⟨2025, 6, 15, 20, 0, 0, 0⟩ "tok" =
      some aliceRow := by
  constructor
  · decide
  · decide

/-- **C2**: a token issued by `authenticate` validates to the authenticating
user (same `id`, `username`, `created_at` — the whole stored row) at any
store time strictly before the expiry instant; after `revokeToken` it no
longer validates; and a string absent from the tokens table never
validates. -/
theorem c2_token_roundtrip (hash : String → String) (tok : String)
    (now now' : DateTime) (db : DB) (username password : String)
    (hwf : db.users.Pairwise (fun a b => a.id ≠ b.id))
    (hres : (AuthManager.authenticate hash tok now db username password).result =
      some tok)
    (hnv : now.Valid) (hny : now.year ≤ 9998) (hok : now'.Valid)
    (hexp : dtLt now' (addOneDay now) = true) :
    (∃ u ∈ db.users, u.username = username ∧
      AuthManager.validateToken
        (AuthManager.authenticate hash tok now db username password).db now' tok =
          some u) ∧
    (∀ n₀ : DateTime,
      AuthManager.validateToken
        (AuthManager.revokeToken
          (AuthManager.authenticate hash tok now db username password).db tok)
        n₀ tok = none) ∧
    (∀ (d : DB) (s : String) (n₀ : DateTime), (∀ t ∈ d.tokens, t.token ≠ s) →
      AuthManager.validateToken d n₀ s = none) := by
  obtain ⟨-, user, hmem, huser, hfresh, heq⟩ :=
    authenticate_issued hash tok tok now db username password hres
  rw [heq]
  dsimp only
  refine ⟨⟨user, hmem, huser, ?_⟩, ?_, ?_⟩
  · unfold AuthManager.validateToken
    dsimp only
    rw [List.find?_append]
    have hold : db.tokens.find? (fun t => t.token == tok &&
        textGt t.expires_at (sqliteNow now')) = none := by
      rw [List.find?_eq_none]
      intro t ht
      simp [hfresh t ht]
    have hgt : textGt (toISOString (addOneDay now)) (sqliteNow now') = true := by
      rw [textGt_iso_now (addOneDay_valid hnv hny) hok,
        dtLt_imp_not_dateLt hexp]
      rfl
    have hnew : List.find? (fun (t : TokenRow) => t.token == tok &&
        textGt t.expires_at (sqliteNow now'))
        ([⟨db.nextTokenId, user.id, tok, toISOString (addOneDay now),
          sqliteNow now⟩] : List TokenRow) =
        some ⟨db.nextTokenId, user.id, tok, toISOString (addOneDay now),
          sqliteNow now⟩ :=
      List.find?_cons_of_pos _ (by simp [hgt])
    rw [hold, Option.none_or, hnew]
    dsimp only
    rw [find?_user_id hwf hmem]
  · intro n₀
    apply validateToken_absent
    intro t ht
    unfold AuthManager.revokeToken at ht
    dsimp only at ht
    have hmf := List.of_mem_filter ht
    simpa using hmf
  · intro d s n₀ h
    exact validateToken_absent d n₀ s h

/-- Witness for C2 at a concrete store: `alice` authenticates at midnight
2025-01-01, the token validates at noon the same day, and no longer
validates after revocation. -/
theorem c2_witness :
    AuthManager.validateToken
      (AuthManager.authenticate hashA "tok" ⟨2025, 1, 1, 0, 0, 0, 0⟩ dbC2
        "alice" "pw").db ⟨2025, 1, 1, 12, 0, 0, 0⟩ "tok" = some userA ∧
    AuthManager.validateToken
      (AuthManager.revokeToken
        (AuthManager.authenticate hashA "tok" ⟨2025, 1, 1, 0, 0, 0, 0⟩ dbC2
          "alice" "pw").db "tok") ⟨2025, 1, 1, 12, 0, 0, 0⟩ "tok" = none := by
  obtain ⟨⟨u, hu, -, hval⟩, hrev, -⟩ :=
    c2_token_roundtrip hashA "tok" ⟨2025, 1, 1, 0, 0, 0, 0⟩
      ⟨2025, 1, 1, 12, 0, 0, 0⟩ dbC2 "alice" "pw"
      (by decide) (by decide) (by decide) (by decide) (by decide) (by decide)
  have hu' : u = userA := by
    have : dbC2.users = [userA] := rfl
    rw [this] at hu
    simpa using hu
  exact ⟨hu' ▸ hval, hrev ⟨2025, 1, 1, 12, 0, 0, 0⟩⟩

/-- **C4**: creating a user with a fresh username and then authenticating
with the same credentials issues a (non-null) token. -/
theorem c4_create_then_authenticate (hash : String → String) (tok : String)
    (now now' : DateTime) (db : DB) (username password : String)
    (hu : username ≠ "") (hp : password ≠ "")
    (hnew : ∀ u ∈ db.users, u.username ≠ username)
    (hfresh : ∀ t ∈ db.tokens, t.token ≠ tok) :
    ∃ (id : Nat) (db' : DB),
      AuthManager.createUser hash db now username password = (.ok id, db') ∧
      (AuthManager.authenticate hash tok now' db' username password).result =
        some tok := by
  have hany : db.users.any (fun u => u.username == username) = false := by
    rw [List.any_eq_false]
    intro u hu'
    simp [hnew u hu']
  have hins : usersInsert db now username (hash password) =
      .ok (db.nextUserId,
        { db with
          users := db.users ++ [⟨db.nextUserId, username, hash password,
            sqliteNow now⟩],
          nextUserId := db.nextUserId + 1 }) := by
    unfold usersInsert
    rw [if_neg (by simp [hany])]
  refine ⟨db.nextUserId,
    { db with
      users := db.users ++ [⟨db.nextUserId, username, hash password,
        sqliteNow now⟩],
      nextUserId := db.nextUserId + 1 }, ?_, ?_⟩
  · unfold AuthManager.createUser
    dsimp only
    rw [hins]
  · have hfind : (db.users ++ [(⟨db.nextUserId, username, hash password,
        sqliteNow now⟩ : UserRow)]).find? (fun u => u.username == username) =
        some ⟨db.nextUserId, username, hash password, sqliteNow now⟩ := by
      rw [List.find?_append]
      have hnone : db.users.find? (fun u => u.username == username) = none := by
        rw [List.find?_eq_none]
        intro u hu'
        simp [hnew u hu']
      rw [hnone, Option.none_or]
      exact List.find?_cons_of_pos _ (by simp)
    rw [authenticate_success hash tok now'
      { db with
        users := db.users ++ [⟨db.nextUserId, username, hash password,
          sqliteNow now⟩],
        nextUserId := db.nextUserId + 1 }
      username password
      ⟨db.nextUserId, username, hash password, sqliteNow now⟩ hfind rfl hfresh]

/-- Witness for C4: on an empty store, register `alice` and log in. -/
theorem c4_witness :
    ∃ (id : Nat) (db' : DB),
      AuthManager.createUser hashA DB.empty ⟨2025, 1, 1, 0, 0, 0, 0⟩
        "alice" "hunter2pass" = (.ok id, db') ∧
      (AuthManager.authenticate hashA "tok" ⟨2025, 1, 1, 6, 0, 0, 0⟩ db'
        "alice" "hunter2pass").result = some "tok" :=
  c4_create_then_authenticate hashA "tok" ⟨2025, 1, 1, 0, 0, 0, 0⟩
    ⟨2025, 1, 1, 6, 0, 0, 0⟩ DB.empty "alice" "hunter2pass"
    (by decide) (by decide) (by decide) (by decide)

/-- **C3**: `createUser` fails with the duplicate-username error exactly when
a row with that username already exists — the check is the store's
uniqueness constraint firing on the insert itself — and on that failure the
store state is returned unchanged, so the existing user row is untouched. -/
theorem c3_duplicate_username (hash : String → String) (db : DB)
    (now : DateTime) (username password : String) :
    ((AuthManager.createUser hash db now username password).1 =
        .error .usernameExists ↔ ∃ u ∈ db.users, u.username = username) ∧
    ((AuthManager.createUser hash db now username password).1 =
        .error .usernameExists →
      (AuthManager.createUser hash db now username password).2 = db) := by
  unfold AuthManager.createUser
  dsimp only
  by_cases hany : db.users.any (fun u => u.username == username) = true
  · have hins : usersInsert db now username (hash password) = .error () := by
      unfold usersInsert
      rw [if_pos hany]
    rw [hins]
    dsimp only
    refine ⟨⟨fun _ => ?_, fun _ => rfl⟩, fun _ => rfl⟩
    obtain ⟨u, hu, he⟩ := List.any_eq_true.mp hany
    exact ⟨u, hu, by simpa using he⟩
  · have hins : usersInsert db now username (hash password) =
        .ok (db.nextUserId,
          { db with
            users := db.users ++ [⟨db.nextUserId, username, hash password,
              sqliteNow now⟩],
            nextUserId := db.nextUserId + 1 }) := by
      unfold usersInsert
      rw [if_neg hany]
    rw [hins]
    dsimp only
    constructor
    · constructor
      · intro hcon
        simp at hcon
      · rintro ⟨u, hu, he⟩
        exact absurd (List.any_eq_true.mpr ⟨u, hu, by simp [he]⟩) hany
    · intro hcon
      simp at hcon

/-- Witness for C3: registering `alice` a second time fails and leaves the
store unchanged. -/
theorem c3_witness :
    (AuthManager.createUser hashA dbC2 ⟨2025, 1, 2, 0, 0, 0, 0⟩ "alice" "x").1 =
      .error .usernameExists ∧
    (AuthManager.createUser hashA dbC2 ⟨2025, 1, 2, 0, 0, 0, 0⟩ "alice" "x").2 =
      dbC2 := by
  have h := c3_duplicate_username hashA dbC2 ⟨2025, 1, 2, 0, 0, 0, 0⟩ "alice" "x"
  have he := h.1.mpr ⟨userA, by decide, rfl⟩
  exact ⟨he, h.2 he⟩

/-- **C9**: the `User` object built by `validateToken` carries the stored
`password_hash` of the joined user row, and `getUserById` returns the stored
row itself (hash included): the hash is exposed through both return values. -/
theorem c9_password_hash_exposed (db : DB) (now : DateTime) (tok : String)
    (id : Nat) (u v : UserRow) :
    (AuthManager.validateToken db now tok = some u →
      ∃ r ∈ db.users, r.id = u.id ∧ r.password_hash = u.password_hash) ∧
    (AuthManager.getUserById db id = some v → v ∈ db.users) := by
  constructor
  · intro h
    unfold AuthManager.validateToken at h
    cases hf : db.tokens.find? (fun t => t.token == tok &&
        textGt t.expires_at (sqliteNow now)) with
    | none => rw [hf] at h; simp at h
    | some t =>
      rw [hf] at h
      dsimp only at h
      cases hu : db.users.find? (fun x => x.id == t.user_id) with
      | none => rw [hu] at h; simp at h
      | some r =>
        rw [hu] at h
        dsimp only at h
        simp only [Option.some.injEq] at h
        subst h
        exact ⟨r, List.mem_of_find?_eq_some hu, rfl, rfl⟩
  · intro h
    exact List.mem_of_find?_eq_some h

/-- Witness for C9 on a concrete store: the validated user and the user
fetched by id both carry the stored hash. -/
theorem c9_witness :
    (∃ r ∈ dbC1.users, r.id = aliceRow.id ∧
      r.password_hash = aliceRow.password_hash) ∧
    aliceRow ∈ dbC1.users := by
  have h := c9_password_hash_exposed dbC1 ⟨2025, 6, 14, 12, 0, 0, 0⟩ "tok" 1
    aliceRow aliceRow
  exact ⟨h.1 (by decide), h.2 (by decide)⟩

/-! ### Config-invariant helpers for C7 -/

theorem set_preserves_PairUnique (db : DB) (now : DateTime) (k v : String)
    (env : Option Environment) (h : PairUnique db) :
    PairUnique (ConfigManager.set db now k v env).2 := by
  unfold PairUnique at h ⊢
  unfold ConfigManager.set
  dsimp only
  cases hf : db.config.find? (fun r => r.key == k &&
      r.environment == ConfigManager.resolveEnv env) with
  | some r =>
    dsimp only
    refine h.map _ (fun a b hab => ?_)
    have hk : ∀ x : ConfigRow,
        (if x.id == r.id then
          ({ x with value := v, updated_at := toISOString now } : ConfigRow)
        else x).key = x.key := by
      intro x
      split <;> rfl
    have he : ∀ x : ConfigRow,
        (if x.id == r.id then
          ({ x with value := v, updated_at := toISOString now } : ConfigRow)
        else x).environment = x.environment := by
      intro x
      split <;> rfl
    rw [hk, hk, he, he]
    exact hab
  | none =>
    dsimp only
    rw [List.pairwise_append]
    refine ⟨h, by simp, ?_⟩
    intro a ha b hb
    rw [List.mem_singleton] at hb
    subst hb
    rintro ⟨hka, hea⟩
    have := List.find?_eq_none.mp hf a ha
    simp [hka, hea] at this

theorem delete_preserves_PairUnique (db : DB) (k : String)
    (env : Option Environment) (h : PairUnique db) :
    PairUnique (ConfigManager.delete db k env).2 := by
  unfold PairUnique at h ⊢
  unfold ConfigManager.delete
  dsimp only
  exact List.Pairwise.sublist (List.filter_sublist _) h

/-- **C7**: `(key, environment)` uniqueness is preserved by every sequence of
sequentially executed `set`/`delete` operations, and `set` on a store that
already holds a row for the pair does not change the number of rows (it
never inserts a second row for the pair). -/
theorem c7_pair_uniqueness_invariant (db : DB) (ops : List CfgOp)
    (h : PairUnique db) :
    PairUnique (applyOps db ops) ∧
    (∀ (now : DateTime) (k v : String) (env : Option Environment),
      (∃ r ∈ db.config, r.key = k ∧
        r.environment = ConfigManager.resolveEnv env) →
      ((ConfigManager.set db now k v env).2.config).length =
        db.config.length) := by
  constructor
  · induction ops generalizing db with
    | nil => exact h
    | cons op rest ih =>
      have hstep : PairUnique (applyOp db op) := by
        cases op with
        | setOp now k v e => exact set_preserves_PairUnique db now k v e h
        | delOp k e => exact delete_preserves_PairUnique db k e h
      exact ih _ hstep
  · rintro now k v env ⟨r, hr, hk, he⟩
    unfold ConfigManager.set
    dsimp only
    cases hf : db.config.find? (fun x => x.key == k &&
        x.environment == ConfigManager.resolveEnv env) with
    | none =>
      exfalso
      have := List.find?_eq_none.mp hf r hr
      simp [hk, he] at this
    | some r' =>
      dsimp only
      simp

/-- Witness for C7: a concrete op sequence on the empty store keeps the
invariant, and a `set` to an existing key in `dbC8` does not add a row. -/
theorem c7_witness :
    PairUnique (applyOps DB.empty
      [.setOp ⟨2025, 1, 1, 0, 0, 0, 0⟩ "k" "v" none,
       .setOp ⟨2025, 1, 1, 1, 0, 0, 0⟩ "k" "v2" none,
       .delOp "q" none]) ∧
    ((ConfigManager.set dbC8 ⟨2025, 1, 2, 0, 0, 0, 0⟩ "x" "w" none).2.config).length =
      dbC8.config.length := by
  refine ⟨(c7_pair_uniqueness_invariant DB.empty _
    (by unfold PairUnique; decide)).1, ?_⟩
  exact (c7_pair_uniqueness_invariant dbC8 [] (by unfold PairUnique; decide)).2
    ⟨2025, 1, 2, 0, 0, 0, 0⟩ "x" "w" none ⟨rowX, by decide, rfl, rfl⟩

/-- **C6**: first conjunct — updating an existing `(key, environment)` row
changes only `value` and `updated_at`, preserving `id`, `created_at` and
`environment`, leaves exactly one row for the pair and every other row
untouched. Second conjunct — the `set("k","v1")` then `set("k","v2")`
scenario: one row remains, with the same `id` and `created_at` as after the
first call, value `"v2"`, and an `updated_at` not below the first call's
`updated_at` in the store's TEXT order. -/
theorem c6_set_update_frame :
    (∀ (db : DB) (t : DateTime) (k v2 : String) (env : Option Environment)
        (r₀ : ConfigRow),
      db.config.Pairwise
        (fun a b => ¬(a.key = b.key ∧ a.environment = b.environment)) →
      db.config.Pairwise (fun a b => a.id ≠ b.id) →
      r₀ ∈ db.config → r₀.key = k →
      r₀.environment = ConfigManager.resolveEnv env →
      (ConfigManager.set db t k v2 env).1 =
        ⟨r₀.id, r₀.key, v2, r₀.environment, r₀.created_at, toISOString t⟩ ∧
      (ConfigManager.set db t k v2 env).2.config.filter
          (fun r => r.key == k &&
            r.environment == ConfigManager.resolveEnv env) =
        [⟨r₀.id, r₀.key, v2, r₀.environment, r₀.created_at, toISOString t⟩] ∧
      (ConfigManager.set db t k v2 env).2.config.filter
          (fun r => !(r.key == k &&
            r.environment == ConfigManager.resolveEnv env)) =
        db.config.filter
          (fun r => !(r.key == k &&
            r.environment == ConfigManager.resolveEnv env))) ∧
    (∀ (db : DB) (t1 t2 : DateTime) (k v1 v2 : String)
        (env : Option Environment),
      db.config.Pairwise
        (fun a b => ¬(a.key = b.key ∧ a.environment = b.environment)) →
      db.config.Pairwise (fun a b => a.id ≠ b.id) →
      (∀ r ∈ db.config, r.id < db.nextConfigId) →
      (∀ r ∈ db.config,
        ¬(r.key = k ∧ r.environment = ConfigManager.resolveEnv env)) →
      t1.Valid → t2.Valid → dtLt t2 t1 = false →
      (ConfigManager.set db t1 k v1 env).1 =
        ⟨db.nextConfigId, k, v1, ConfigManager.resolveEnv env, toISOString t1,
          toISOString t1⟩ ∧
      (ConfigManager.set (ConfigManager.set db t1 k v1 env).2 t2 k v2 env).1 =
        ⟨db.nextConfigId, k, v2, ConfigManager.resolveEnv env, toISOString t1,
          toISOString t2⟩ ∧
      (ConfigManager.set (ConfigManager.set db t1 k v1 env).2 t2 k v2
          env).2.config.filter
          (fun r => r.key == k &&
            r.environment == ConfigManager.resolveEnv env) =
        [⟨db.nextConfigId, k, v2, ConfigManager.resolveEnv env, toISOString t1,
          toISOString t2⟩] ∧
      charsLt (toISOString t2).data (toISOString t1).data = false) := by
  constructor
  · intro db t k v2 env r₀ hpair hids hmem hk he
    obtain ⟨heq, hfil, hframe⟩ := set_update db t k v2 env r₀ hpair hids hmem hk he
    exact ⟨by rw [heq], hfil, hframe⟩
  · intro db t1 t2 k v1 v2 env hpair hids hfresh hnone hv1 hv2 hle
    have h1 := set_insert db t1 k v1 env hnone
    have hA : (⟨db.nextConfigId, k, v1, ConfigManager.resolveEnv env,
        toISOString t1, toISOString t1⟩ : ConfigRow) ∈
        (ConfigManager.set db t1 k v1 env).2.config := by
      rw [h1]
      exact List.mem_append_right _ (List.mem_singleton_self _)
    have hpair1 : (ConfigManager.set db t1 k v1 env).2.config.Pairwise
        (fun a b => ¬(a.key = b.key ∧ a.environment = b.environment)) := by
      rw [h1]
      dsimp only
      rw [List.pairwise_append]
      refine ⟨hpair, by simp, ?_⟩
      intro a ha b hb
      rw [List.mem_singleton] at hb
      subst hb
      rintro ⟨hka, hea⟩
      exact hnone a ha ⟨hka, hea⟩
    have hids1 : (ConfigManager.set db t1 k v1 env).2.config.Pairwise
        (fun a b => a.id ≠ b.id) := by
      rw [h1]
      dsimp only
      rw [List.pairwise_append]
      refine ⟨hids, by simp, ?_⟩
      intro a ha b hb
      rw [List.mem_singleton] at hb
      subst hb
      intro hcon
      have := hfresh a ha
      dsimp only at hcon
      omega
    obtain ⟨heq2, hfil2, -⟩ := set_update (ConfigManager.set db t1 k v1 env).2
      t2 k v2 env
      ⟨db.nextConfigId, k, v1, ConfigManager.resolveEnv env, toISOString t1,
        toISOString t1⟩
      hpair1 hids1 hA rfl rfl
    refine ⟨by rw [h1], by rw [heq2], hfil2, ?_⟩
    rw [charsLt_iso hv2 hv1]
    exact hle

/-- Witness for C6: on the empty store, `set "k" "v1"` on 2025-01-01 then
`set "k" "v2"` on 2025-01-02 leaves exactly one row with the original
`created_at` and the newer `updated_at`. -/
theorem c6_witness :
    (ConfigManager.set (ConfigManager.set DB.empty ⟨2025, 1, 1, 0, 0, 0, 0⟩
        "k" "v1" none).2 ⟨2025, 1, 2, 0, 0, 0, 0⟩ "k" "v2"
        none).2.config.filter
        (fun r => r.key == "k" &&
          r.environment == ConfigManager.resolveEnv none) =
      [⟨1, "k", "v2", ConfigManager.resolveEnv none,
        toISOString ⟨2025, 1, 1, 0, 0, 0, 0⟩,
        toISOString ⟨2025, 1, 2, 0, 0, 0, 0⟩⟩] ∧
    charsLt (toISOString ⟨2025, 1, 2, 0, 0, 0, 0⟩).data
      (toISOString ⟨2025, 1, 1, 0, 0, 0, 0⟩).data = false := by
  obtain ⟨-, -, hfil, hord⟩ := c6_set_update_frame.2 DB.empty
    ⟨2025, 1, 1, 0, 0, 0, 0⟩ ⟨2025, 1, 2, 0, 0, 0, 0⟩ "k" "v1" "v2" none
    (by decide) (by decide) (by decide) (by decide) (by decide) (by decide)
    (by decide)
  exact ⟨hfil, hord⟩

/-- **C10**: assuming the digest function emits 64-hex-character strings (the
format of `createHash("sha256").digest("hex")`), every row `createUser` adds
stores such a digest; and on a store whose users all carry such digests,
both buffers in `authenticate` decode to 32 bytes, so the length-mismatch
early return and the `timingSafeEqual` exception branch are never taken. -/
theorem c10_hash_buffers (hash : String → String)
    (hhex : ∀ s, Hex64 (hash s)) :
    (∀ (db : DB) (now : DateTime) (u p : String) (id : Nat) (db' : DB),
      AuthManager.createUser hash db now u p = (.ok id, db') →
      ∀ r ∈ db'.users, r ∈ db.users ∨
        (r.password_hash = hash p ∧ Hex64 r.password_hash)) ∧
    (∀ db : DB, (∀ r ∈ db.users, Hex64 r.password_hash) →
      ∀ (tok : String) (now : DateTime) (u p : String),
        (∀ r ∈ db.users, (bufferFromHex r.password_hash.data).length = 32) ∧
        (bufferFromHex (hash p).data).length = 32 ∧
        (AuthManager.authenticate hash tok now db u p).event ≠
          .lenMismatch ∧
        (AuthManager.authenticate hash tok now db u p).event ≠ .cmpThrow) := by
  constructor
  · intro db now u p id db' hcreate r hr
    unfold AuthManager.createUser at hcreate
    dsimp only at hcreate
    by_cases hany : db.users.any (fun x => x.username == u) = true
    · have hins : usersInsert db now u (hash p) = .error () := by
        unfold usersInsert
        rw [if_pos hany]
      rw [hins] at hcreate
      simp at hcreate
    · have hins : usersInsert db now u (hash p) =
          .ok (db.nextUserId,
            { db with
              users := db.users ++ [⟨db.nextUserId, u, hash p, sqliteNow now⟩],
              nextUserId := db.nextUserId + 1 }) := by
        unfold usersInsert
        rw [if_neg hany]
      rw [hins] at hcreate
      dsimp only at hcreate
      simp only [Prod.mk.injEq] at hcreate
      rw [← hcreate.2] at hr
      dsimp only at hr
      rcases List.mem_append.mp hr with hl | hnew
      · exact Or.inl hl
      · rw [List.mem_singleton] at hnew
        subst hnew
        exact Or.inr ⟨rfl, hhex p⟩
  · intro db hdb tok now u p
    have hlen32 : ∀ r ∈ db.users,
        (bufferFromHex r.password_hash.data).length = 32 := by
      intro r hr
      obtain ⟨hl, hc⟩ := hdb r hr
      rw [bufferFromHex_length _ hc, hl]
    have hplen : (bufferFromHex (hash p).data).length = 32 := by
      obtain ⟨hl, hc⟩ := hhex p
      rw [bufferFromHex_length _ hc, hl]
    refine ⟨hlen32, hplen, ?_⟩
    unfold AuthManager.authenticate
    cases hf : db.users.find? (fun x => x.username == u) with
    | none =>
      dsimp only
      exact ⟨by simp, by simp⟩
    | some user =>
      dsimp only
      have hueq : (bufferFromHex user.password_hash.data).length =
          (bufferFromHex (hash p).data).length := by
        rw [hlen32 user (List.mem_of_find?_eq_some hf), hplen]
      rw [if_neg (by simp [hueq])]
      have htse : timingSafeEqual (bufferFromHex user.password_hash.data)
          (bufferFromHex (hash p).data) =
          .ok (bufferFromHex user.password_hash.data ==
            bufferFromHex (hash p).data) := by
        unfold timingSafeEqual
        rw [if_pos hueq]
      rw [htse]
      cases hb : bufferFromHex user.password_hash.data ==
          bufferFromHex (hash p).data with
      | false => exact ⟨by simp, by simp⟩
      | true =>
        cases hins : tokensInsert db now user.id tok
            (toISOString (addOneDay now)) with
        | error e => exact ⟨by simp, by simp⟩
        | ok db' => exact ⟨by simp, by simp⟩

/-- Witness for C10 with a concrete 64-hex digest function and store. -/
theorem c10_witness :
    Hex64 (hashA "pw") ∧
    (bufferFromHex (hashA "zz").data).length = 32 ∧
    (AuthManager.authenticate hashA "tok" ⟨2025, 1, 1, 0, 0, 0, 0⟩ dbC2
      "alice" "zz").event ≠ .lenMismatch ∧
    (AuthManager.authenticate hashA "tok" ⟨2025, 1, 1, 0, 0, 0, 0⟩ dbC2
      "alice" "zz").event ≠ .cmpThrow := by
  have h := (c10_hash_buffers hashA
    (fun _ => (by decide : Hex64 (String.mk (List.replicate 64 'a'))))).2 dbC2
    (by intro r hr
        have hr' : r = userA := by
          have h' : r ∈ [userA] := hr
          simpa using h'
        rw [hr']
        decide)
    "tok" ⟨2025, 1, 1, 0, 0, 0, 0⟩ "alice" "zz"
  exact ⟨by decide, h.2.1, h.2.2.1, h.2.2.2⟩

/-! ## Lemmas: the LIKE matcher -/

theorem anyCongr {α : Type} {f g : α → Bool} :
    ∀ {l : List α}, (∀ x ∈ l, f x = g x) → l.any f = l.any g
  | [], _ => rfl
  | x :: t, h => by
    simp only [List.any_cons]
    rw [h x (by simp), anyCongr (fun y hy => h y (by simp [hy]))]

theorem likeMatch_percent (ps : List Char) (s : List Char) :
    likeMatch ('%' :: ps) s = s.tails.any (likeMatch ps) := by
  rw [likeMatch.eq_def]
  simp

theorem likeMatch_lit_nil (p : Char) (ps : List Char) (hp : p ≠ '%') :
    likeMatch (p :: ps) [] = false := by
  rw [likeMatch.eq_def]
  simp [hp]

theorem likeMatch_lit_cons (p : Char) (ps : List Char) (c : Char)
    (ss : List Char) (hp : p ≠ '%') (hp2 : p ≠ '_') :
    likeMatch (p :: ps) (c :: ss) = (likeCharEq p c && likeMatch ps ss) := by
  rw [likeMatch.eq_def]
  simp [hp, hp2]

theorem likeMatch_percent_only : ∀ s : List Char, likeMatch ['%'] s = true
  | [] => by simp [likeMatch]
  | c :: ss => by
    rw [likeMatch_percent]
    simp only [List.tails, List.any_cons]
    rw [← likeMatch_percent [] ss, likeMatch_percent_only ss]
    simp

/-- A wildcard-free pattern followed by `%` matches exactly the texts whose
case-folding starts with the pattern's case-folding. -/
theorem likeMatch_append_percent :
    ∀ (pat : List Char), (∀ c ∈ pat, c ≠ '%' ∧ c ≠ '_') →
    ∀ s : List Char,
      likeMatch (pat ++ ['%']) s =
        (pat.map toLowerAscii).isPrefixOf (s.map toLowerAscii)
  | [], _, s => by
    simp only [List.nil_append, List.map_nil]
    rw [likeMatch_percent_only s]
    cases s <;> simp [List.isPrefixOf]
  | p :: ps, h, [] => by
    have hp := h p (by simp)
    rw [List.cons_append, likeMatch_lit_nil p _ hp.1]
    simp [List.isPrefixOf]
  | p :: ps, h, c :: ss => by
    have hp := h p (by simp)
    rw [List.cons_append, likeMatch_lit_cons p _ c ss hp.1 hp.2,
      likeMatch_append_percent ps (fun x hx => h x (by simp [hx])) ss]
    simp [List.isPrefixOf, likeCharEq]

/-- Case-folded substring containment, phrased over the suffixes of the
text. -/
theorem containsSub_tails (q : List Char) :
    ∀ s : List Char,
      containsSub q (s.map toLowerAscii) =
        s.tails.any (fun t => q.isPrefixOf (t.map toLowerAscii))
  | [] => by
    cases q <;> simp [containsSub, List.isPrefixOf]
  | c :: ss => by
    simp only [List.map_cons, containsSub, List.tails, List.any_cons,
      List.map_cons]
    rw [containsSub_tails q ss]

/-- The wrapped pattern `%pat%` (for wildcard-free `pat`) matches exactly the
texts containing `pat` as a case-folded substring. -/
theorem likeMatch_wrapped (pat : List Char)
    (h : ∀ c ∈ pat, c ≠ '%' ∧ c ≠ '_') (s : List Char) :
    likeMatch ('%' :: (pat ++ ['%'])) s =
      containsSub (pat.map toLowerAscii) (s.map toLowerAscii) := by
  rw [likeMatch_percent, containsSub_tails]
  exact anyCongr (fun t _ => likeMatch_append_percent pat h t)

/-- **C8 counterexample**: the claim says `getByPattern` returns exactly the
entries whose key contains the pattern as a substring. With pattern `"_"`
the store row with key `"x"` is returned (SQL `LIKE` treats `_` as a
single-character wildcard), although `"_"` is not a substring of `"x"`. -/
theorem c8_counterexample :
    ConfigManager.getByPattern dbC8 "_" none = [rowX] ∧
    containsSub "_".data "x".data = false := by
  constructor
  · decide
  · decide

/-- **C8 amended**: for patterns free of the `LIKE` wildcards `%` and `_`,
`getByPattern` returns exactly the entries of the environment whose key
contains the pattern as a substring up to ASCII case, ordered by key
ascending (BINARY collation). -/
theorem c8_getByPattern_substring (db : DB) (pattern : String)
    (env : Option Environment)
    (hw : ∀ c ∈ pattern.data, c ≠ '%' ∧ c ≠ '_') :
    ConfigManager.getByPattern db pattern env =
      ConfigManager.getByPatternSubstrCI db pattern env ∧
    List.Sorted keyLe (ConfigManager.getByPattern db pattern env) ∧
    (ConfigManager.getByPattern db pattern env).Perm
      (db.config.filter (fun r =>
        containsSub (pattern.data.map toLowerAscii)
          (r.key.data.map toLowerAscii) &&
        r.environment == ConfigManager.resolveEnv env)) := by
  haveI htot : IsTotal ConfigRow keyLe := ⟨by
    intro a b
    unfold keyLe
    cases hab : charsLt b.key.data a.key.data
    · exact Or.inl rfl
    · exact Or.inr (charsLt_asymm hab)⟩
  haveI htr : IsTrans ConfigRow keyLe := ⟨by
    intro a b c hab hbc
    unfold keyLe at hab hbc ⊢
    cases hca : charsLt c.key.data a.key.data
    · rfl
    · exfalso
      cases hbc' : charsLt b.key.data c.key.data
      · have heq := charsLt_connex hbc' hbc
        rw [← heq] at hca
        rw [hab] at hca
        exact Bool.false_ne_true hca
      · have htrans := charsLt_trans hbc' hca
        rw [hab] at htrans
        exact Bool.false_ne_true htrans⟩
  have hfeq : db.config.filter (fun r =>
      likeMatch ('%' :: (pattern.data ++ ['%'])) r.key.data &&
        r.environment == ConfigManager.resolveEnv env) =
      db.config.filter (fun r =>
        containsSub (pattern.data.map toLowerAscii)
          (r.key.data.map toLowerAscii) &&
        r.environment == ConfigManager.resolveEnv env) := by
    apply List.filter_congr
    intro r _
    rw [likeMatch_wrapped pattern.data hw r.key.data]
  refine ⟨?_, ?_, ?_⟩
  · unfold ConfigManager.getByPattern ConfigManager.getByPatternSubstrCI
    dsimp only
    rw [hfeq]
  · unfold ConfigManager.getByPattern
    dsimp only
    exact List.sorted_insertionSort keyLe _
  · unfold ConfigManager.getByPattern
    dsimp only
    rw [hfeq]
    exact List.perm_insertionSort keyLe _

/-- Witness for C8 (amended) at a wildcard-free pattern on a concrete store. -/
theorem c8_witness :
    ConfigManager.getByPattern dbC8 "x" none =
      ConfigManager.getByPatternSubstrCI dbC8 "x" none ∧
    List.Sorted keyLe (ConfigManager.getByPattern dbC8 "x" none) := by
  obtain ⟨h1, h2, -⟩ := c8_getByPattern_substring dbC8 "x" none (by decide)
  exact ⟨h1, h2⟩

end Backend
